import Mathlib

/-!
Verification development for a convolutional sequence-to-sequence model
(encoder-decoder with gated linear unit convolutions and attention),
shallowly embedded from `net.py`.

Tensors are modelled as shape-carrying structures whose payload is a total
function on indices; the hidden-state tensors of the source have shape
`[batch, units, length, 1]` and the trailing singleton axis is represented
implicitly, so `F.squeeze(x, axis=3)` is the identity in this embedding.
Floating point numbers are modelled by an arbitrary linear ordered field,
and the transcendental primitives the code delegates to the tensor engine
(`exp`, `log`, `sqrt`, `sigmoid`) together with the residual scale constant
`0.5 ** 0.5` are collected in a `Prims` record; the concrete real-valued
instantiation is `realPrims`.  The IEEE value NaN, which the code produces
on purpose in a fully masked softmax row and then removes again, is
modelled by `Option`: `none` is NaN, and the same device models the
`ValueError` the numpy backend raises when the position clamp writes into
a read-only broadcast view.  The reshape in `sentence_block_embed` is
embedded exactly as written in the source, without a transpose, including
the channel scrambling it causes for more than one unit.

Dropout (`F.dropout`) follows the chainer semantics: it is the identity
when the ambient `train` configuration flag is off, and with `train` on it
zeroes each entry whose Bernoulli draw fails and rescales kept entries by
`1 / (1 - ratio)`.  The random draws are passed in explicitly as boolean
mask functions (one per dropout site, one family per `translate` step), so
the ambient randomness and the ambient `chainer.config.train` flag are
explicit parameters of every forward entry point.
-/

namespace ConvS2S

/-- A hidden-state tensor `[batch, units, length]` (the source keeps a
trailing singleton axis for the convolution primitive; it is implicit
here). Entries outside the recorded shape are irrelevant junk. -/
structure T3 (F : Type) where
  batch : ℕ
  units : ℕ
  len : ℕ
  data : ℕ → ℕ → ℕ → F

/-- A four dimensional tensor `[batch, units, dec_length, enc_length]`,
used for the broadcast encoder value tensor `ze`. -/
structure T4 (F : Type) where
  batch : ℕ
  units : ℕ
  dec : ℕ
  enc : ℕ
  data : ℕ → ℕ → ℕ → ℕ → F

/-- A boolean mask indexed like an attention-score tensor
`[batch, dec_length, enc_length]`. -/
abbrev Mask3 : Type := ℕ → ℕ → ℕ → Bool

/-- The numeric primitives the code treats as a black-box tensor-engine
capability, plus the residual scale constant `0.5 ** 0.5`. -/
structure Prims (F : Type) where
  sig : F → F
  expF : F → F
  logF : F → F
  sqrtF : F → F
  resScale : F

/-- The real-number instantiation of the primitives: `sigmoid`, `exp`,
`log`, `sqrt` and the residual scale `0.5 ** 0.5 = sqrt (1/2)`. -/
noncomputable def realPrims : Prims ℝ where
  sig := fun z => 1 / (1 + Real.exp (-z))
  expF := Real.exp
  logF := Real.log
  sqrtF := Real.sqrt
  resScale := Real.sqrt 2⁻¹

variable {F : Type} [LinearOrderedField F]

/-- Elementwise tensor addition (the residual additions `x + layer(x)`,
`x + c`); shapes agree at every use site in the source. -/
def addT (x y : T3 F) : T3 F where
  batch := x.batch
  units := x.units
  len := x.len
  data := fun b c t => x.data b c t + y.data b c t

/-- Elementwise multiplication by a scalar (`x *= scale`). -/
def smulT (a : F) (x : T3 F) : T3 F where
  batch := x.batch
  units := x.units
  len := x.len
  data := fun b c t => x.data b c t * a

/-- Two tensors have the same shape. -/
def sameShape (x y : T3 F) : Prop :=
  x.batch = y.batch ∧ x.units = y.units ∧ x.len = y.len

/-- `F.dropout(x, ratio)` under an explicit `train` flag and an explicit
Bernoulli draw `m` (`m b c t = true` means the entry is kept): identity at
inference, zero-or-rescale during training. -/
def dropoutT (train : Bool) (pdrop : F) (m : ℕ → ℕ → ℕ → Bool) (x : T3 F) : T3 F :=
  if train then
    { batch := x.batch, units := x.units, len := x.len,
      data := fun b c t => if m b c t then x.data b c t / (1 - pdrop) else 0 }
  else x

/-- Parameters of one `ConvGLU` link: `L.Convolution2D(n_units, 2*n_units,
ksize=(width,1), pad=(width//2*(1-nopad), 0))` plus the dropout ratio. -/
structure ConvGLU (F : Type) where
  nunits : ℕ
  width : ℕ
  nopad : Bool
  pdrop : F
  W : ℕ → ℕ → ℕ → F
  bias : ℕ → F

/-- The implicit symmetric padding of the convolution:
`width // 2 * (1 - nopad)`. -/
def ConvGLU.pad (p : ConvGLU F) : ℕ :=
  if p.nopad then 0 else p.width / 2

/-- The input as the convolution reads it: `pad` zeros on each side of the
length axis, zero outside the padded extent. -/
def ConvGLU.convIn (p : ConvGLU F) (x : T3 F) (b i q : ℕ) : F :=
  if q < p.pad ∨ p.pad + x.len ≤ q then 0 else x.data b i (q - p.pad)

/-- The raw convolution `self.conv(x)`: `2 * n_units` output channels,
output length `len + 2*pad - width + 1`, cross-correlation along the
length axis. -/
def ConvGLU.conv (p : ConvGLU F) (x : T3 F) : T3 F where
  batch := x.batch
  units := 2 * p.nunits
  len := x.len + 2 * p.pad - p.width + 1
  data := fun b c t =>
    p.bias c + ∑ i ∈ Finset.range p.nunits, ∑ k ∈ Finset.range p.width,
      p.W c i k * p.convIn x b i (t + k)

/-- `ConvGLU.__call__`: dropout, convolution, split the `2*n_units`
channels into `out` and `pregate`, return `out * sigmoid(pregate)`. -/
def ConvGLU.call (P : Prims F) (train : Bool) (m : ℕ → ℕ → ℕ → Bool)
    (p : ConvGLU F) (x : T3 F) : T3 F :=
  let h := p.conv (dropoutT train p.pdrop m x)
  { batch := x.batch, units := p.nunits, len := h.len,
    data := fun b c t => h.data b c t * P.sig (h.data b (p.nunits + c) t) }

/-- `ConvGLUEncoder.__init__`: `n_layers` ConvGLU links with the given
width and implicit symmetric padding (`nopad` false). -/
def convGLUEncoderInit (nLayers nUnits width : ℕ) (pdrop : F)
    (ws : ℕ → (ℕ → ℕ → ℕ → F) × (ℕ → F)) : List (ConvGLU F) :=
  (List.range nLayers).map fun i =>
    { nunits := nUnits, width := width, nopad := false, pdrop := pdrop,
      W := (ws i).1, bias := (ws i).2 }

/-- The loop body of `ConvGLUEncoder.__call__`:
`x = x + l_i(x); x *= scale` iterated over the layers, with the
layer-indexed dropout draws `em`. -/
def encoderGo (P : Prims F) (train : Bool) (em : ℕ → ℕ → ℕ → ℕ → Bool) :
    ℕ → List (ConvGLU F) → T3 F → T3 F
  | _, [], x => x
  | i, p :: rest, x =>
      encoderGo P train em (i + 1) rest
        (smulT P.resScale (addT x (p.call P train (em i) x)))

/-- `ConvGLUEncoder.__call__`. -/
def encoderCall (P : Prims F) (train : Bool) (em : ℕ → ℕ → ℕ → ℕ → Bool)
    (layers : List (ConvGLU F)) (x : T3 F) : T3 F :=
  encoderGo P train em 0 layers x

/-- The residual additions of the encoder are well-shaped: at every layer
the ConvGLU output has the shape of its input. -/
def encShapesOk (P : Prims F) (train : Bool) (em : ℕ → ℕ → ℕ → ℕ → Bool) :
    ℕ → List (ConvGLU F) → T3 F → Prop
  | _, [], _ => True
  | i, p :: rest, x =>
      sameShape (p.call P train (em i) x) x ∧
      encShapesOk P train em (i + 1) rest
        (smulT P.resScale (addT x (p.call P train (em i) x)))

/-- Parameters of one decoder layer: the causal ConvGLU and the
`preatt` linear projection. -/
structure DecLayer (F : Type) where
  conv : ConvGLU F
  preattW : ℕ → ℕ → F
  preattB : ℕ → F

/-- `ConvGLUDecoder.__init__`: `n_layers` ConvGLU links of kernel width
`width // 2 + 1` with `nopad=True`, and `n_layers` preatt linears. -/
def convGLUDecoderInit (nLayers nUnits width : ℕ) (pdrop : F)
    (ws : ℕ → (ℕ → ℕ → ℕ → F) × (ℕ → F))
    (pre : ℕ → (ℕ → ℕ → F) × (ℕ → F)) : List (DecLayer F) :=
  (List.range nLayers).map fun i =>
    { conv := { nunits := nUnits, width := width / 2 + 1, nopad := true,
                pdrop := pdrop, W := (ws i).1, bias := (ws i).2 },
      preattW := (pre i).1, preattB := (pre i).2 }

/-- `seq_linear`: apply a linear layer position-wise along the sequence. -/
def seqLinear (W : ℕ → ℕ → F) (bias : ℕ → F) (x : T3 F) : T3 F where
  batch := x.batch
  units := x.units
  len := x.len
  data := fun b c t => bias c + ∑ u ∈ Finset.range x.units, W c u * x.data b u t

/-- `F.concat([pad, x], axis=2)` with `pad = zeros((batch, units, 2, 1))`:
two zero timesteps hardcoded on the left, for every kernel width. -/
def padTwo (x : T3 F) : T3 F where
  batch := x.batch
  units := x.units
  len := x.len + 2
  data := fun b i q => if q < 2 then 0 else x.data b i (q - 2)

/-- Raw attention scores `F.batch_matmul(query, key, transa=True)`:
`pre_a[b, t, s] = sum_c query[b, c, t] * key[b, c, s]`. -/
def attScores (q k : T3 F) (b t s : ℕ) : F :=
  ∑ c ∈ Finset.range q.units, q.data b c t * k.data b c s

/-- Number of valid (unmasked) source positions in one mask row; also the
value of `xp.sum(mask, axis=2)` at `(b, t)`. -/
def attValidCount (mask : Mask3) (encLen b t : ℕ) : ℕ :=
  ((Finset.range encLen).filter fun s => mask b t s = true).card

/-- The softmax output over the `-inf`-masked scores, with NaN as `none`:
a row whose entries are all `-inf` (a fully masked row) yields NaN
everywhere; otherwise a masked entry contributes `exp(-inf) = 0` and an
unmasked entry gets the usual softmax weight. -/
def attWeightRaw (P : Prims F) (q k : T3 F) (mask : Mask3) (b t s : ℕ) : Option F :=
  if attValidCount mask k.len b t = 0 then none
  else if mask b t s then
    some (P.expF (attScores q k b t s) /
      ∑ s2 ∈ (Finset.range k.len).filter (fun s2 => mask b t s2 = true),
        P.expF (attScores q k b t s2))
  else some 0

/-- The re-masked attention weights: `F.where(isnan(a), 0, a)`. -/
def attWeight (P : Prims F) (q k : T3 F) (mask : Mask3) (b t s : ℕ) : F :=
  (attWeightRaw P q k mask b t s).getD 0

/-- `ConvGLUDecoder.attend`: masked softmax over the scores, NaN rows
zeroed, then the weighted sum of the value tensor over source positions. -/
def attend (P : Prims F) (q k : T3 F) (v : T4 F) (mask : Mask3) : T3 F where
  batch := q.batch
  units := v.units
  len := q.len
  data := fun b c t =>
    ∑ s ∈ Finset.range v.enc, attWeight P q k mask b t s * v.data b c t s

/-- The per-position attention scale
`att_scale = xp.sum(mask, axis=2, keepdims=True) ** 0.5`. -/
def attScaleOf (P : Prims F) (mask : Mask3) (encLen b t : ℕ) : F :=
  P.sqrtF ((attValidCount mask encLen b t : ℕ) : F)

/-- `c *= att_scale`. -/
def attScaleMul (P : Prims F) (mask : Mask3) (encLen : ℕ) (c : T3 F) : T3 F where
  batch := c.batch
  units := c.units
  len := c.len
  data := fun b ch t => c.data b ch t * attScaleOf P mask encLen b t

/-- One decoder layer up to the convolution:
`x = x + conv(concat([pad, x])); x *= scale`.  This is also the tensor
the decoder actually passes to `attend` as the query
(`query = F.squeeze(x, axis=3)`). -/
def decConvOut (P : Prims F) (train : Bool) (m : ℕ → ℕ → ℕ → Bool)
    (l : DecLayer F) (x : T3 F) : T3 F :=
  smulT P.resScale (addT x (l.conv.call P train m (padTwo x)))

/-- The value `base_x + seq_linear(preatt, x)` computed at lines 129-130 of
the source and immediately overwritten by `query = F.squeeze(x, axis=3)`. -/
def decQueryPre (l : DecLayer F) (baseX xc : T3 F) : T3 F :=
  addT baseX (seqLinear l.preattW l.preattB xc)

/-- One iteration of the `ConvGLUDecoder.__call__` loop. -/
def decStep (P : Prims F) (train : Bool) (m : ℕ → ℕ → ℕ → Bool)
    (z : T3 F) (ze : T4 F) (zmask : Mask3) (baseX : T3 F)
    (l : DecLayer F) (x : T3 F) : T3 F :=
  let xc := decConvOut P train m l x
  let _dead := decQueryPre l baseX xc
  let query := xc
  let c := attScaleMul P zmask ze.enc (attend P query z ze zmask)
  addT xc c

/-- The decoder layer loop, with layer-indexed dropout draws `dm`. -/
def decoderGo (P : Prims F) (train : Bool) (dm : ℕ → ℕ → ℕ → ℕ → Bool)
    (z : T3 F) (ze : T4 F) (zmask : Mask3) (baseX : T3 F) :
    ℕ → List (DecLayer F) → T3 F → T3 F
  | _, [], x => x
  | i, l :: rest, x =>
      decoderGo P train dm z ze zmask baseX (i + 1) rest
        (decStep P train (dm i) z ze zmask baseX l x)

/-- `ConvGLUDecoder.__call__`. -/
def decoderCall (P : Prims F) (train : Bool) (dm : ℕ → ℕ → ℕ → ℕ → Bool)
    (layers : List (DecLayer F)) (x z : T3 F) (ze : T4 F) (zmask : Mask3) : T3 F :=
  decoderGo P train dm z ze zmask x 0 layers x

/-- The constructor configuration of `Seq2seq`. -/
structure S2SCfg (F : Type) where
  nLayers : ℕ
  nSourceVocab : ℕ
  nTargetVocab : ℕ
  nUnits : ℕ
  maxLength : ℕ
  pdrop : F

/-- The parameters owned by a `Seq2seq` chain. -/
structure S2SParams (F : Type) where
  embX : ℕ → ℕ → F
  embY : ℕ → ℕ → F
  posX : ℕ → ℕ → F
  posY : ℕ → ℕ → F
  encLayers : List (ConvGLU F)
  decLayers : List (DecLayer F)
  outW : ℕ → ℕ → F
  outB : ℕ → F

/-- The raw draws handed to `Seq2seq.__init__` for each weight table. -/
structure S2SRaw (F : Type) where
  embX : ℕ → ℕ → F
  embY : ℕ → ℕ → F
  posX : ℕ → ℕ → F
  posY : ℕ → ℕ → F
  encW : ℕ → (ℕ → ℕ → ℕ → F) × (ℕ → F)
  decW : ℕ → (ℕ → ℕ → ℕ → F) × (ℕ → F)
  preW : ℕ → (ℕ → ℕ → F) × (ℕ → F)
  outW : ℕ → ℕ → F
  outB : ℕ → F

/-- `Seq2seq.__init__`: both the encoder and the decoder are constructed
with width 5 (so each decoder ConvGLU has kernel width `5 // 2 + 1 = 3`). -/
def seq2seqInit (cfg : S2SCfg F) (w : S2SRaw F) : S2SParams F where
  embX := w.embX
  embY := w.embY
  posX := w.posX
  posY := w.posY
  encLayers := convGLUEncoderInit cfg.nLayers cfg.nUnits 5 cfg.pdrop w.encW
  decLayers := convGLUDecoderInit cfg.nLayers cfg.nUnits 5 cfg.pdrop w.decW w.preW
  outW := w.outW
  outB := w.outB

/-- The Bernoulli draws for every dropout site of one forward call. -/
structure DropMasks where
  encM : ℕ → ℕ → ℕ → ℕ → Bool
  decM : ℕ → ℕ → ℕ → ℕ → Bool
  outM : ℕ → ℕ → Bool

/-- `L.EmbedID` lookup with `ignore_label=-1`: the ignore id embeds to the
zero vector. -/
def embedLookup (table : ℕ → ℕ → F) (tok : ℤ) (c : ℕ) : F :=
  if tok < 0 then 0 else table tok.toNat c

/-- The position index lines 190-193 attempt to compute at offset `i`:
`arange`, then offsets at and beyond `max_length` overwritten with
`max_length - 1` whenever `max(x_len, y_len)` exceeds `max_length`.  On
the numpy backend the clamp branch never executes: the in-place write
raises first (see `positionBlockNp`), so on every call that returns,
`maxLen ≤ maxL` holds and this function is the identity
(`positionIndex_id_of_no_overflow`). -/
def positionIndex (maxL maxLen i : ℕ) : ℕ :=
  if maxL < maxLen ∧ maxL ≤ i then maxL - 1 else i

/-- The position block of lines 190-193 as it actually executes on the
numpy backend: `xp.broadcast_to` returns a read-only view, so the
in-place clamp `position_block[:, self.max_length:] = self.max_length - 1`
raises `ValueError` (modelled as `none`) whenever `max(x_len, y_len)`
exceeds `max_length`; otherwise the write is skipped and the block is the
plain `arange` row. -/
def positionBlockNp (maxL maxLen : ℕ) : Option (ℕ → ℕ) :=
  if maxL < maxLen then none else some fun i => i

/-- `sentence_block_embed` (lines 12-15): embed the flattened
`(batch*length,)` id block to a `(batch*length, units)` matrix and
reshape it directly to `(batch, units, length)`.  The reshape has NO
transpose (contrast `seq_linear` just below it in the source), so in C
order the entry at `[b, c, l]` is component `(c*length + l) % units` of
the embedding of the token at position `(c*length + l) / units`: for
`units > 1` the channels of one output position mix embedding components
of several token positions.  `lookup` is the per-id row lookup
(`embedLookup table` for token tables with `ignore_label=-1`, a plain
table read for position tables). -/
def sentenceBlockEmbed (lookup : ℤ → ℕ → F) (blockTok : ℕ → ℕ → ℤ)
    (units seqLen batch : ℕ) : T3 F where
  batch := batch
  units := units
  len := seqLen
  data := fun b c l =>
    lookup (blockTok b ((c * seqLen + l) / units)) ((c * seqLen + l) % units)

/-- The embedded block assembled by `Seq2seq.__call__`:
`sentence_block_embed` of the token block plus `sentence_block_embed` of
the position block (`ex_block += px_block`), both with the transpose-less
reshape above.  The position part uses `positionIndex`, the index the
code attempts to look up (the identity on every non-raising call). -/
def embedBlock (table : ℕ → ℕ → F) (posTable : ℕ → ℕ → F)
    (blockTok : ℕ → ℕ → ℤ) (maxL maxLen units seqLen batch : ℕ) : T3 F :=
  addT (sentenceBlockEmbed (embedLookup table) blockTok units seqLen batch)
    (sentenceBlockEmbed (fun tok u => posTable tok.toNat u)
      (fun _ j => (positionIndex maxL maxLen j : ℤ)) units seqLen batch)

/-- The attention mask `z_mask`: true where both the source and the target
position hold a real (non `-1`) token. -/
def zMask (x y : ℕ → ℕ → ℤ) : Mask3 :=
  fun b t s => decide (0 ≤ x b s) && decide (0 ≤ y b t)

/-- The embedded source block `ex_block` (token plus position). -/
def seq2seqEX (cfg : S2SCfg F) (par : S2SParams F) (x : ℕ → ℕ → ℤ)
    (xLen yLen batch : ℕ) : T3 F :=
  embedBlock par.embX par.posX x cfg.maxLength (max xLen yLen) cfg.nUnits xLen batch

/-- The embedded target block `ey_block` (token plus position). -/
def seq2seqEY (cfg : S2SCfg F) (par : S2SParams F) (y : ℕ → ℕ → ℤ)
    (xLen yLen batch : ℕ) : T3 F :=
  embedBlock par.embY par.posY y cfg.maxLength (max xLen yLen) cfg.nUnits yLen batch

/-- The encoder output `z_block`. -/
def seq2seqZ (P : Prims F) (train : Bool) (dm : DropMasks)
    (cfg : S2SCfg F) (par : S2SParams F) (x : ℕ → ℕ → ℤ)
    (xLen yLen batch : ℕ) : T3 F :=
  encoderCall P train dm.encM par.encLayers (seq2seqEX cfg par x xLen yLen batch)

/-- The broadcast value tensor
`ze_block = broadcast(transpose(z_block + ex_block))`. -/
def seq2seqZE (P : Prims F) (train : Bool) (dm : DropMasks)
    (cfg : S2SCfg F) (par : S2SParams F) (x : ℕ → ℕ → ℤ)
    (xLen yLen batch : ℕ) : T4 F where
  batch := batch
  units := cfg.nUnits
  dec := yLen
  enc := xLen
  data := fun b c _t s =>
    (seq2seqZ P train dm cfg par x xLen yLen batch).data b c s
      + (seq2seqEX cfg par x xLen yLen batch).data b c s

/-- The decoder output `h_block` (after `F.squeeze(., axis=3)`). -/
def seq2seqH (P : Prims F) (train : Bool) (dm : DropMasks)
    (cfg : S2SCfg F) (par : S2SParams F) (x y : ℕ → ℕ → ℤ)
    (xLen yLen batch : ℕ) : T3 F :=
  decoderCall P train dm.decM par.decLayers
    (seq2seqEY cfg par y xLen yLen batch)
    (seq2seqZ P train dm cfg par x xLen yLen batch)
    (seq2seqZE P train dm cfg par x xLen yLen batch)
    (zMask x y)

/-- `concat_h_block`: row `r = b * y_length + t` of the flattened decoder
output holds the hidden vector of batch `b`, position `t`. -/
def hFlat (P : Prims F) (train : Bool) (dm : DropMasks)
    (cfg : S2SCfg F) (par : S2SParams F) (x y : ℕ → ℕ → ℤ)
    (xLen yLen batch : ℕ) (r u : ℕ) : F :=
  (seq2seqH P train dm cfg par x y xLen yLen batch).data (r / yLen) u (r % yLen)

/-- `F.dropout(concat_h_block, ratio)` with the output-site draw. -/
def hDrop (P : Prims F) (train : Bool) (dm : DropMasks)
    (cfg : S2SCfg F) (par : S2SParams F) (x y : ℕ → ℕ → ℤ)
    (xLen yLen batch : ℕ) (r u : ℕ) : F :=
  if train then
    if dm.outM r u then
      hFlat P train dm cfg par x y xLen yLen batch r u / (1 - cfg.pdrop)
    else 0
  else hFlat P train dm cfg par x y xLen yLen batch r u

/-- `concat_pred_block = self.W(concat_h_block)`: the vocabulary logits of
flattened row `r`. -/
def predFlat (P : Prims F) (train : Bool) (dm : DropMasks)
    (cfg : S2SCfg F) (par : S2SParams F) (x y : ℕ → ℕ → ℤ)
    (xLen yLen batch : ℕ) (r v : ℕ) : F :=
  par.outB v + ∑ u ∈ Finset.range cfg.nUnits,
    par.outW v u * hDrop P train dm cfg par x y xLen yLen batch r u

/-- `pred_block` as returned with `get_prediction=True`, reshaped to
`[batch, y_length, vocab]`. -/
def predBlock (P : Prims F) (train : Bool) (dm : DropMasks)
    (cfg : S2SCfg F) (par : S2SParams F) (x y : ℕ → ℕ → ℤ)
    (xLen yLen batch : ℕ) (b t v : ℕ) : F :=
  predFlat P train dm cfg par x y xLen yLen batch (b * yLen + t) v

/-- `concat_y_out_block`: the flattened next-token targets. -/
def yOutFlat (yOut : ℕ → ℕ → ℤ) (yLen r : ℕ) : ℤ :=
  yOut (r / yLen) (r % yLen)

/-- The per-row summand of `F.softmax_cross_entropy(..., reduce='mean')`:
zero at the ignore id `-1`, otherwise `logsumexp(pred) - pred[target]`
(that is, minus the log softmax probability of the target). -/
def ceFlat (P : Prims F) (train : Bool) (dm : DropMasks)
    (cfg : S2SCfg F) (par : S2SParams F) (x y yOut : ℕ → ℕ → ℤ)
    (xLen yLen batch : ℕ) (r : ℕ) : F :=
  if yOutFlat yOut yLen r < 0 then 0
  else
    P.logF (∑ v ∈ Finset.range cfg.nTargetVocab,
        P.expF (predFlat P train dm cfg par x y xLen yLen batch r v))
      - predFlat P train dm cfg par x y xLen yLen batch r (yOutFlat yOut yLen r).toNat

/-- The normalizer of the mean reduction: the number of non-ignored target
positions. -/
def lossCount (yOut : ℕ → ℕ → ℤ) (yLen batch : ℕ) : ℕ :=
  ((Finset.range (batch * yLen)).filter fun r => 0 ≤ yOutFlat yOut yLen r).card

/-- The scalar loss returned by `Seq2seq.__call__` on the training path:
the summed cross entropy divided by `max(count, 1)`. -/
def lossVal (P : Prims F) (train : Bool) (dm : DropMasks)
    (cfg : S2SCfg F) (par : S2SParams F) (x y yOut : ℕ → ℕ → ℤ)
    (xLen yLen batch : ℕ) : F :=
  (∑ r ∈ Finset.range (batch * yLen),
      ceFlat P train dm cfg par x y yOut xLen yLen batch r)
    / ((max (lossCount yOut yLen batch) 1 : ℕ) : F)

/-- The reported perplexity metric `perp = xp.exp(loss.data)`. -/
def perpVal (P : Prims F) (train : Bool) (dm : DropMasks)
    (cfg : S2SCfg F) (par : S2SParams F) (x y yOut : ℕ → ℕ → ℤ)
    (xLen yLen batch : ℕ) : F :=
  P.expF (lossVal P train dm cfg par x y yOut xLen yLen batch)

/-- `xp.argmax` along the vocabulary axis: first index attaining the
maximum, numpy tie-breaking. -/
def argmaxIdx (f : ℕ → F) (n : ℕ) : ℕ :=
  (List.range n).foldl (fun best v => if f best < f v then v else best) 0

/-- One decode step: run the forward pass in prediction mode on the
current target prefix, take the logits of the last position, argmax. -/
def stepTokens (P : Prims F) (train : Bool) (dm : DropMasks)
    (cfg : S2SCfg F) (par : S2SParams F) (x : ℕ → ℕ → ℤ)
    (xLen batch yLen : ℕ) (y : ℕ → ℕ → ℤ) (b : ℕ) : ℤ :=
  (argmaxIdx
    (fun v => predBlock P train dm cfg par x y xLen yLen batch b (yLen - 1) v)
    cfg.nTargetVocab : ℕ)

/-- `F.concat([y_block, ys[:, None]], axis=1)`. -/
def appendTok (y : ℕ → ℕ → ℤ) (yLen : ℕ) (ys : ℕ → ℤ) : ℕ → ℕ → ℤ :=
  fun b t => if t = yLen then ys b else y b t

/-- The greedy decoding loop of `Seq2seq.translate`: grow the target block
one argmax token per step, accumulate the per-step token vectors, stop
early once every batch element has emitted the end-of-sequence id 0. -/
def translateGo (P : Prims F) (train : Bool) (dms : ℕ → DropMasks)
    (cfg : S2SCfg F) (par : S2SParams F) (x : ℕ → ℕ → ℤ) (xLen batch : ℕ) :
    ℕ → ℕ → ℕ → (ℕ → ℕ → ℤ) → (ℕ → Bool) → List (ℕ → ℤ) → List (ℕ → ℤ)
  | 0, _, _, _, _, acc => acc.reverse
  | fuel + 1, i, yLen, y, flags, acc =>
      let ys := stepTokens P train (dms i) cfg par x xLen batch yLen y
      let flags2 := fun b => flags b || decide (ys b = 0)
      if (List.range batch).all flags2 then (ys :: acc).reverse
      else
        translateGo P train dms cfg par x xLen batch fuel (i + 1) (yLen + 1)
          (appendTok y yLen ys) flags2 (ys :: acc)

/-- The raw decode result (`result`, one token vector per step), starting
from the single start token 0. -/
def translateRaw (P : Prims F) (train : Bool) (dms : ℕ → DropMasks)
    (cfg : S2SCfg F) (par : S2SParams F) (x : ℕ → ℕ → ℤ)
    (xLen batch maxLen : ℕ) : List (ℕ → ℤ) :=
  translateGo P train dms cfg par x xLen batch maxLen 0 1
    (fun _ _ => 0) (fun _ => false) []

/-- Truncation at the first end-of-sequence token (id 0), if present. -/
def truncEos (y : List ℤ) : List ℤ :=
  y.takeWhile fun v => v != 0

/-- The per-sequence post-processing of `translate`: truncate at the first
id 0; if that leaves nothing, substitute the placeholder `[1]`. -/
def postOne (y : List ℤ) : List ℤ :=
  if truncEos y = [] then [1] else truncEos y

/-- `Seq2seq.translate`: the list of decoded output sequences, one per
batch element. -/
def translateOuts (P : Prims F) (train : Bool) (dms : ℕ → DropMasks)
    (cfg : S2SCfg F) (par : S2SParams F) (x : ℕ → ℕ → ℤ)
    (xLen batch maxLen : ℕ) : List (List ℤ) :=
  (List.range batch).map fun b =>
    postOne ((translateRaw P train dms cfg par x xLen batch maxLen).map
      fun ys => ys b)

/-! ### Spec-side restatement of the loss (for refinement comparison)

`specMeanCE` is written from the words of the specification: the mean
cross-entropy loss over the non-ignored target positions of the
`[batch, y_length]` grid, targets equal to `-1` contributing nothing.  It
is compared against `lossVal`, which is translated from the code. -/

/-- The non-ignored positions of the target grid. -/
def specValidSet (yOut : ℕ → ℕ → ℤ) (batch yLen : ℕ) : Finset (ℕ × ℕ) :=
  (Finset.range batch ×ˢ Finset.range yLen).filter fun bt => 0 ≤ yOut bt.1 bt.2

/-- The cross entropy of the logits at grid position `(b, t)` against the
target token there: minus the log softmax probability of the target. -/
def specCE (P : Prims F) (train : Bool) (dm : DropMasks)
    (cfg : S2SCfg F) (par : S2SParams F) (x y yOut : ℕ → ℕ → ℤ)
    (xLen yLen batch : ℕ) (b t : ℕ) : F :=
  P.logF (∑ v ∈ Finset.range cfg.nTargetVocab,
      P.expF (predBlock P train dm cfg par x y xLen yLen batch b t v))
    - predBlock P train dm cfg par x y xLen yLen batch b t (yOut b t).toNat

/-- The mean cross-entropy loss over non-ignored target positions, as the
specification words it. -/
def specMeanCE (P : Prims F) (train : Bool) (dm : DropMasks)
    (cfg : S2SCfg F) (par : S2SParams F) (x y yOut : ℕ → ℕ → ℤ)
    (xLen yLen batch : ℕ) : F :=
  (∑ bt ∈ specValidSet yOut batch yLen,
      specCE P train dm cfg par x y yOut xLen yLen batch bt.1 bt.2)
    / ((max (specValidSet yOut batch yLen).card 1 : ℕ) : F)

/-! ### Concrete fixtures for witnesses and counterexamples -/

/-- Trivial primitives over `ℚ` (the transcendental functions are never
evaluated in the fixtures that use this). -/
def qPrims : Prims ℚ where
  sig := id
  expF := id
  logF := id
  sqrtF := id
  resScale := 1

/-- An all-zero `1 × 1 × 1` hidden state. -/
def oneT : T3 ℚ := ⟨1, 1, 1, fun _ _ _ => 0⟩

/-- An all-ones `1 × 1 × 1 × 1` value tensor. -/
def oneV : T4 ℚ := ⟨1, 1, 1, 1, fun _ _ _ _ => 1⟩

/-- The everywhere-true dropout draw (every entry kept). -/
def kTrue : ℕ → ℕ → ℕ → Bool := fun _ _ _ => true

/-- The everywhere-false mask. -/
def kFalse : ℕ → ℕ → ℕ → Bool := fun _ _ _ => false

/-- A tiny configuration: no conv layers, one unit, three target tokens. -/
def cexCfg : S2SCfg ℚ where
  nLayers := 0
  nSourceVocab := 4
  nTargetVocab := 3
  nUnits := 1
  maxLength := 4
  pdrop := 1/2

/-- Concrete weights: the start token embeds to 1, the output projection
maps the unit to logits `(0, -h, h)`. -/
def cexRaw : S2SRaw ℚ where
  embX := fun _ _ => 0
  embY := fun n _ => if n = 0 then 1 else 0
  posX := fun _ _ => 0
  posY := fun _ _ => 0
  encW := fun _ => (fun _ _ _ => 0, fun _ => 0)
  decW := fun _ => (fun _ _ _ => 0, fun _ => 0)
  preW := fun _ => (fun _ _ => 0, fun _ => 0)
  outW := fun v _ => if v = 2 then 1 else if v = 1 then -1 else 0
  outB := fun _ => 0

/-- The parameters `Seq2seq.__init__` builds from `cexRaw`. -/
def cexPar : S2SParams ℚ := seq2seqInit cexCfg cexRaw

/-- Dropout draws that keep every entry. -/
def dmKeep : DropMasks := ⟨fun _ _ _ _ => true, fun _ _ _ _ => true, fun _ _ => true⟩

/-- Dropout draws that drop every entry of the output projection input. -/
def dmDrop : DropMasks := ⟨fun _ _ _ _ => true, fun _ _ _ _ => true, fun _ _ => false⟩

/-- A length-1 source block holding token 1. -/
def cexX : ℕ → ℕ → ℤ := fun _ _ => 1

/-- A width-5 encoder layer over `ℝ` with zero weights. -/
def rLayer : ConvGLU ℝ := ⟨1, 5, false, 0, fun _ _ _ => 0, fun _ => 0⟩

/-- An all-zero `1 × 1 × 1` hidden state over `ℝ`. -/
def rT : T3 ℝ := ⟨1, 1, 1, fun _ _ _ => 0⟩

/-- A decoder layer with zero conv weights and preatt bias 1. -/
def cexLayer : DecLayer ℚ where
  conv := { nunits := 1, width := 3, nopad := true, pdrop := 0,
            W := fun _ _ _ => 0, bias := fun _ => 0 }
  preattW := fun _ _ => 0
  preattB := fun _ => 1

/-- The same layer with a different preatt bias. -/
def cexLayer2 : DecLayer ℚ := { cexLayer with preattB := fun _ => 0 }

/-- The all-zero target block. -/
def cexY0 : ℕ → ℕ → ℤ := fun _ _ => 0

/-- A target block that agrees with the all-zero block at position 0 and
differs later. -/
def cexY2 : ℕ → ℕ → ℤ := fun _ t => if t = 0 then 0 else 5

/-- A two-unit configuration with no conv layers (used to exhibit the
channel scrambling of the transpose-less `sentence_block_embed`). -/
def cfg2 : S2SCfg ℚ where
  nLayers := 0
  nSourceVocab := 4
  nTargetVocab := 2
  nUnits := 2
  maxLength := 4
  pdrop := 1/2

/-- Weights for `cfg2`: target id 0 embeds to the zero vector, every
other id to the constant vector 7; everything else is zero. -/
def raw2 : S2SRaw ℚ where
  embX := fun _ _ => 0
  embY := fun n _ => if n = 0 then 0 else 7
  posX := fun _ _ => 0
  posY := fun _ _ => 0
  encW := fun _ => (fun _ _ _ => 0, fun _ => 0)
  decW := fun _ => (fun _ _ _ => 0, fun _ => 0)
  preW := fun _ => (fun _ _ => 0, fun _ => 0)
  outW := fun _ _ => 0
  outB := fun _ => 0

/-- The parameters `Seq2seq.__init__` builds from `raw2`. -/
def par2 : S2SParams ℚ := seq2seqInit cfg2 raw2

/-! ### Shared helper lemmas -/

theorem dropoutT_len (train : Bool) (pd : F) (m : ℕ → ℕ → ℕ → Bool) (x : T3 F) :
    (dropoutT train pd m x).len = x.len := by
  cases train <;> rfl

theorem dropoutT_batch (train : Bool) (pd : F) (m : ℕ → ℕ → ℕ → Bool) (x : T3 F) :
    (dropoutT train pd m x).batch = x.batch := by
  cases train <;> rfl

theorem dropoutT_units (train : Bool) (pd : F) (m : ℕ → ℕ → ℕ → Bool) (x : T3 F) :
    (dropoutT train pd m x).units = x.units := by
  cases train <;> rfl

theorem convGLU_call_len_odd (P : Prims F) (train : Bool)
    (m : ℕ → ℕ → ℕ → Bool) (p : ConvGLU F) (x : T3 F)
    (hodd : Odd p.width) (hnp : p.nopad = false) (hlen : 1 ≤ x.len) :
    (p.call P train m x).len = x.len := by
  obtain ⟨j, hj⟩ := hodd
  show (p.conv (dropoutT train p.pdrop m x)).len = x.len
  show (dropoutT train p.pdrop m x).len + 2 * p.pad - p.width + 1 = x.len
  rw [dropoutT_len]
  unfold ConvGLU.pad
  rw [hnp]
  simp only [Bool.false_eq_true, if_false]
  omega

theorem sum_range_mul_flatten {M : Type} [AddCommMonoid M] (f : ℕ → M) (batch yLen : ℕ) :
    ∑ r ∈ Finset.range (batch * yLen), f r
      = ∑ bt ∈ Finset.range batch ×ˢ Finset.range yLen, f (bt.1 * yLen + bt.2) := by
  rcases Nat.eq_zero_or_pos yLen with h | h
  · subst h; simp
  · refine Finset.sum_nbij' (fun r => (r / yLen, r % yLen))
      (fun bt => bt.1 * yLen + bt.2) ?_ ?_ ?_ ?_ ?_
    · intro r hr
      simp only [Finset.mem_range] at hr
      simp only [Finset.mem_product, Finset.mem_range]
      constructor
      · exact Nat.div_lt_of_lt_mul (by rw [mul_comm]; exact hr)
      · exact Nat.mod_lt _ h
    · intro bt hbt
      simp only [Finset.mem_product, Finset.mem_range] at hbt
      simp only [Finset.mem_range]
      have h1 : bt.1 * yLen + bt.2 < (bt.1 + 1) * yLen := by
        have := hbt.2; nlinarith
      have h2 : (bt.1 + 1) * yLen ≤ batch * yLen :=
        Nat.mul_le_mul_right _ (by omega)
      omega
    · intro r _
      simp only
      rw [mul_comm, Nat.div_add_mod]
    · intro bt hbt
      simp only [Finset.mem_product, Finset.mem_range] at hbt
      have h1 : (bt.1 * yLen + bt.2) / yLen = bt.1 := by
        rw [add_comm, mul_comm bt.1 yLen, Nat.add_mul_div_left _ _ h,
          Nat.div_eq_of_lt hbt.2, Nat.zero_add]
      have h2 : (bt.1 * yLen + bt.2) % yLen = bt.2 := by
        rw [add_comm, Nat.add_mul_mod_self_right, Nat.mod_eq_of_lt hbt.2]
      simp only
      rw [h1, h2]
    · intro r _
      simp only
      rw [mul_comm, Nat.div_add_mod]

theorem flat_div (b t yLen : ℕ) (ht : t < yLen) : (b * yLen + t) / yLen = b := by
  have h : 0 < yLen := by omega
  rw [add_comm, mul_comm b yLen, Nat.add_mul_div_left _ _ h,
    Nat.div_eq_of_lt ht, Nat.zero_add]

theorem flat_mod (b t yLen : ℕ) (ht : t < yLen) : (b * yLen + t) % yLen = t := by
  rw [add_comm, Nat.add_mul_mod_self_right, Nat.mod_eq_of_lt ht]

/-! ### Claim theorems -/

/-- C1: for every batch index `b` and target position `t` whose mask row
is entirely false, the context vector the attention unit returns at
`(b, t)` is exactly zero: the softmax of the all-`-inf` row is NaN
(`none`), the re-mask replaces it by all-zero weights, and the weighted
sum over source positions is then zero. -/
theorem attend_fully_masked_row_zero (P : Prims F) (q k : T3 F) (v : T4 F)
    (mask : Mask3) (b t : ℕ)
    (h : ∀ s, s < k.len → mask b t s = false) (c : ℕ) :
    (attend P q k v mask).data b c t = 0 := by
  have hc : attValidCount mask k.len b t = 0 := by
    unfold attValidCount
    rw [Finset.card_eq_zero, Finset.filter_eq_empty_iff]
    intro s hs
    simp [h s (Finset.mem_range.mp hs)]
  show (∑ s ∈ Finset.range v.enc, attWeight P q k mask b t s * v.data b c t s) = 0
  refine Finset.sum_eq_zero fun s _ => ?_
  unfold attWeight attWeightRaw
  rw [if_pos hc]
  simp

/-- Witness for C1 at a concrete fully-masked instance. -/
theorem attend_fully_masked_row_zero_w :
    (∀ s, s < oneT.len → kFalse 0 0 s = false) ∧
      (attend qPrims oneT oneT oneV kFalse).data 0 0 0 = 0 :=
  ⟨fun _ _ => rfl, attend_fully_masked_row_zero qPrims oneT oneT oneV kFalse 0 0
    (fun _ _ => rfl) 0⟩

theorem positionIndex_id_of_no_overflow (maxL maxLen i : ℕ)
    (h : maxLen ≤ maxL) : positionIndex maxL maxLen i = i := by
  unfold positionIndex
  rw [if_neg]
  rintro ⟨h1, -⟩
  omega

/-- C3: the claim is refuted by the numpy semantics of lines 190-193:
`xp.broadcast_to` returns a read-only view, so with `max_length = 2` and
`max(x_len, y_len) = 3` the in-place clamp raises `ValueError` (`none`)
and the call is rejected rather than proceeding with clamped positions;
an in-range call (`max(x_len, y_len) = 3 ≤ max_length = 4`) passes the
`arange` positions through unchanged. -/
theorem position_overflow_raises_cex :
    positionBlockNp 2 3 = none ∧ positionBlockNp 4 3 = some fun i => i :=
  ⟨rfl, rfl⟩

/-- C7: the GatedConvBlock output has exactly `units` channels (half of
the convolution channels), and with `nopad` false and odd `width` the
output sequence length equals the input length (the batch size is also
unchanged). -/
theorem convGLU_output_shape (P : Prims F) (train : Bool)
    (m : ℕ → ℕ → ℕ → Bool) (p : ConvGLU F) (x : T3 F)
    (hu : p.nunits = x.units) (hodd : Odd p.width) (hnp : p.nopad = false)
    (hlen : 1 ≤ x.len) :
    (p.call P train m x).units = x.units
    ∧ (p.call P train m x).len = x.len
    ∧ (p.call P train m x).batch = x.batch :=
  ⟨hu, convGLU_call_len_odd P train m p x hodd hnp hlen, rfl⟩

/-- Witness for C7 at a width-5 layer on a `1 × 1 × 1` input. -/
theorem convGLU_output_shape_w :
    Odd (5 : ℕ) ∧
      ((⟨1, 5, false, 0, fun _ _ _ => 0, fun _ => 0⟩ : ConvGLU ℚ).call
          qPrims false kTrue oneT).len = oneT.len :=
  ⟨⟨2, by norm_num⟩,
   (convGLU_output_shape qPrims false kTrue _ oneT rfl ⟨2, by norm_num⟩ rfl
      (by norm_num [oneT])).2.1⟩

/-- C10: the decoder left padding is the hardcoded two timesteps whatever
the width; a decoder ConvGLU layer built from constructor width `w` has
kernel width `w / 2 + 1` and no implicit padding; such a convolution
preserves the sequence length of the unpadded input iff the kernel width
is 3, which holds iff the constructor width is 4 or 5; and `Seq2seq`
always builds its decoder with width 5. -/
theorem decoder_pad_hardcoded_width_iff :
    (∀ (nL nU w : ℕ) (pd : F) ws pre l, l ∈ convGLUDecoderInit nL nU w pd ws pre →
        l.conv.width = w / 2 + 1 ∧ l.conv.nopad = true)
    ∧ (∀ x : T3 F, (padTwo x).len = x.len + 2
        ∧ ∀ b i q, q < 2 → (padTwo x).data b i q = 0)
    ∧ (∀ (P : Prims F) (train : Bool) (m : ℕ → ℕ → ℕ → Bool) (p : ConvGLU F)
          (x : T3 F), p.nopad = true → p.width ≤ x.len + 2 →
        ((p.call P train m (padTwo x)).len = x.len ↔ p.width = 3))
    ∧ (∀ w : ℕ, w / 2 + 1 = 3 ↔ (w = 4 ∨ w = 5))
    ∧ (∀ (cfg : S2SCfg F) (w : S2SRaw F),
        (seq2seqInit cfg w).decLayers
          = convGLUDecoderInit cfg.nLayers cfg.nUnits 5 cfg.pdrop w.decW w.preW) := by
  refine ⟨?_, ?_, ?_, ?_, ?_⟩
  · intro nL nU w pd ws pre l hl
    unfold convGLUDecoderInit at hl
    rw [List.mem_map] at hl
    obtain ⟨i, -, rfl⟩ := hl
    exact ⟨rfl, rfl⟩
  · intro x
    refine ⟨rfl, fun b i q hq => ?_⟩
    show (if q < 2 then 0 else x.data b i (q - 2)) = 0
    rw [if_pos hq]
  · intro P train m p x hnp hw
    show ((dropoutT train p.pdrop m (padTwo x)).len + 2 * p.pad - p.width + 1 = x.len
      ↔ p.width = 3)
    rw [dropoutT_len]
    unfold ConvGLU.pad
    rw [hnp]
    show (x.len + 2 + 2 * 0 - p.width + 1 = x.len ↔ p.width = 3)
    omega
  · intro w
    omega
  · intro cfg w
    rfl

/-- Witness for C10: the inner implications applied at width 5 and a
concrete kernel-3 layer. -/
theorem decoder_pad_hardcoded_width_iff_w :
    cexLayer.conv.nopad = true ∧ cexLayer.conv.width ≤ oneT.len + 2 ∧
      ((cexLayer.conv.call qPrims false kTrue (padTwo oneT)).len = oneT.len
        ↔ cexLayer.conv.width = 3) ∧
      ((5 : ℕ) / 2 + 1 = 3 ↔ (5 = 4 ∨ 5 = 5)) :=
  ⟨rfl, by norm_num [cexLayer, oneT],
   (decoder_pad_hardcoded_width_iff (F := ℚ)).2.2.1 qPrims false kTrue
     cexLayer.conv oneT rfl (by norm_num [cexLayer, oneT]),
   (decoder_pad_hardcoded_width_iff (F := ℚ)).2.2.2.1 5⟩

theorem encoderGo_shape (P : Prims F) (train : Bool)
    (em : ℕ → ℕ → ℕ → ℕ → Bool) (ps : List (ConvGLU F)) :
    ∀ (i : ℕ) (x : T3 F), sameShape (encoderGo P train em i ps x) x := by
  induction ps with
  | nil => intro i x; exact ⟨rfl, rfl, rfl⟩
  | cons p rest ih => intro i x; exact ih (i + 1) _

theorem encShapesOk_of (P : Prims F) (train : Bool)
    (em : ℕ → ℕ → ℕ → ℕ → Bool) (u0 l0 : ℕ) (ps : List (ConvGLU F)) :
    ∀ (i : ℕ) (x : T3 F), x.units = u0 → x.len = l0 → 1 ≤ l0 →
      (∀ p ∈ ps, Odd p.width ∧ p.nopad = false ∧ p.nunits = u0) →
      encShapesOk P train em i ps x := by
  induction ps with
  | nil => intro i x _ _ _ _; trivial
  | cons p rest ih =>
      intro i x hu hl hpos hps
      obtain ⟨hodd, hnp, hnu⟩ := hps p (List.mem_cons_self _ _)
      refine ⟨⟨rfl, hnu.trans hu.symm, ?_⟩, ?_⟩
      · exact convGLU_call_len_odd P train (em i) p x hodd hnp (hl ▸ hpos)
      · exact ih (i + 1) _ hu hl hpos fun q hq => hps q (List.mem_cons_of_mem _ hq)

/-- C8: the encoder stack output has the shape of its input for every
layer count (and every residual addition inside it is well-shaped); with
zero layers the encoder is the identity; and each layer maps `x` to
`(x + layer(x))` scaled by `1 / sqrt 2`. -/
theorem encoder_shape_identity_residual (train : Bool)
    (em : ℕ → ℕ → ℕ → ℕ → Bool) (layers : List (ConvGLU ℝ)) (x : T3 ℝ)
    (hlay : ∀ p ∈ layers, Odd p.width ∧ p.nopad = false ∧ p.nunits = x.units)
    (hlen : 1 ≤ x.len) :
    sameShape (encoderCall realPrims train em layers x) x
    ∧ encShapesOk realPrims train em 0 layers x
    ∧ encoderCall realPrims train em [] x = x
    ∧ ∀ (i : ℕ) (p : ConvGLU ℝ) (rest : List (ConvGLU ℝ)) (y : T3 ℝ),
        encoderGo realPrims train em i (p :: rest) y
          = encoderGo realPrims train em (i + 1) rest
              (smulT (Real.sqrt 2)⁻¹ (addT y (p.call realPrims train (em i) y))) := by
  refine ⟨encoderGo_shape realPrims train em layers 0 x,
    encShapesOk_of realPrims train em x.units x.len layers 0 x rfl rfl hlen hlay,
    rfl, ?_⟩
  intro i p rest y
  show encoderGo realPrims train em (i + 1) rest
      (smulT realPrims.resScale (addT y (p.call realPrims train (em i) y))) = _
  rw [show (realPrims.resScale : ℝ) = (Real.sqrt 2)⁻¹ from Real.sqrt_inv 2]

/-- Witness for C8 at a one-layer width-5 encoder on a `1 × 1 × 1`
input. -/
theorem encoder_shape_identity_residual_w :
    (1 ≤ rT.len) ∧ encShapesOk realPrims false (fun _ _ _ _ => false) 0 [rLayer] rT :=
  ⟨le_refl 1,
   (encoder_shape_identity_residual false (fun _ _ _ _ => false) [rLayer] rT
      (fun p hp => by
        rw [List.mem_singleton] at hp
        subst hp
        exact ⟨⟨2, by norm_num [rLayer]⟩, rfl, rfl⟩)
      (le_refl 1)).2.1⟩

theorem decStep_conv_congr (P : Prims F) (train : Bool)
    (m : ℕ → ℕ → ℕ → Bool) (z : T3 F) (ze : T4 F) (zmask : Mask3)
    (baseX : T3 F) (l1 l2 : DecLayer F) (hc : l1.conv = l2.conv) (x : T3 F) :
    decStep P train m z ze zmask baseX l1 x
      = decStep P train m z ze zmask baseX l2 x := by
  show addT (decConvOut P train m l1 x)
      (attScaleMul P zmask ze.enc (attend P (decConvOut P train m l1 x) z ze zmask))
    = addT (decConvOut P train m l2 x)
      (attScaleMul P zmask ze.enc (attend P (decConvOut P train m l2 x) z ze zmask))
  unfold decConvOut
  rw [hc]

/-- C5 amended: at each decoder layer the value `base_x + preatt(x)` of
source lines 129-130 is computed and immediately overwritten, so the
query actually passed to the attention unit is the post-convolution
state itself, and the decoder output is entirely independent of the
preatt parameters. -/
theorem attention_query_overwritten_preatt_dead (P : Prims F) (train : Bool)
    (dm : ℕ → ℕ → ℕ → ℕ → Bool) (z : T3 F) (ze : T4 F) (zmask : Mask3)
    (baseX : T3 F) (i : ℕ) (x : T3 F) (L1 L2 : List (DecLayer F))
    (h : List.Forall₂ (fun a b => a.conv = b.conv) L1 L2) :
    (∀ (m : ℕ → ℕ → ℕ → Bool) (l : DecLayer F) (x2 : T3 F),
        decStep P train m z ze zmask baseX l x2
          = addT (decConvOut P train m l x2)
              (attScaleMul P zmask ze.enc
                (attend P (decConvOut P train m l x2) z ze zmask)))
    ∧ decoderGo P train dm z ze zmask baseX i L1 x
        = decoderGo P train dm z ze zmask baseX i L2 x := by
  refine ⟨fun m l x2 => rfl, ?_⟩
  induction h generalizing i x with
  | nil => rfl
  | @cons a1 a2 l1 l2 hc htail ih =>
      show decoderGo P train dm z ze zmask baseX (i + 1) l1
          (decStep P train (dm i) z ze zmask baseX a1 x) = _
      rw [decStep_conv_congr P train (dm i) z ze zmask baseX a1 a2 hc x]
      exact ih (i + 1) _

/-- Witness for C5 amended: two concrete singleton layer lists differing
only in the preatt bias. -/
theorem attention_query_overwritten_preatt_dead_w :
    decoderGo qPrims false (fun _ => kTrue) oneT oneV kFalse oneT 0 [cexLayer] oneT
      = decoderGo qPrims false (fun _ => kTrue) oneT oneV kFalse oneT 0 [cexLayer2] oneT :=
  (attention_query_overwritten_preatt_dead qPrims false (fun _ => kTrue) oneT oneV
    kFalse oneT 0 oneT [cexLayer] [cexLayer2]
    (List.Forall₂.cons rfl List.Forall₂.nil)).2

/-- C5 counterexample: the claim that the attention query equals
`base_x + preatt` fails at a concrete layer: the query the decoder
passes (the post-convolution state, here 0) differs from
`base_x + preatt` (here 1). -/
theorem attention_query_not_preatt_cex :
    (decConvOut qPrims false kTrue cexLayer oneT).data 0 0 0
      ≠ (decQueryPre cexLayer oneT
          (decConvOut qPrims false kTrue cexLayer oneT)).data 0 0 0 := by
  norm_num [decConvOut, decQueryPre, smulT, addT, seqLinear, ConvGLU.call,
    ConvGLU.conv, ConvGLU.convIn, ConvGLU.pad, dropoutT, padTwo, cexLayer,
    oneT, qPrims, Finset.sum_range_succ, Finset.sum_range_zero]

/-- C9: on the training path the forward call returns the mean cross
entropy over the non-ignored target positions (targets equal to `-1`
contribute nothing), and the reported perplexity equals `exp` of the
reported loss, for every input. -/
theorem loss_mean_ce_perp_exp (P : Prims F) (train : Bool) (dm : DropMasks)
    (cfg : S2SCfg F) (par : S2SParams F) (x y yOut : ℕ → ℕ → ℤ)
    (xLen yLen batch : ℕ) :
    lossVal P train dm cfg par x y yOut xLen yLen batch
      = specMeanCE P train dm cfg par x y yOut xLen yLen batch
    ∧ perpVal P train dm cfg par x y yOut xLen yLen batch
      = P.expF (lossVal P train dm cfg par x y yOut xLen yLen batch) := by
  constructor
  · have hnum : (∑ r ∈ Finset.range (batch * yLen),
        ceFlat P train dm cfg par x y yOut xLen yLen batch r)
        = ∑ bt ∈ specValidSet yOut batch yLen,
            specCE P train dm cfg par x y yOut xLen yLen batch bt.1 bt.2 := by
      rw [sum_range_mul_flatten]
      unfold specValidSet
      rw [Finset.sum_filter]
      refine Finset.sum_congr rfl fun bt hbt => ?_
      have ht : bt.2 < yLen :=
        Finset.mem_range.mp (Finset.mem_product.mp hbt).2
      unfold ceFlat yOutFlat specCE predBlock
      rw [flat_div _ _ _ ht, flat_mod _ _ _ ht]
      by_cases hy : yOut bt.1 bt.2 < 0
      · rw [if_pos hy, if_neg (by omega)]
      · rw [if_neg hy, if_pos (by omega)]
    have hcard : lossCount yOut yLen batch = (specValidSet yOut batch yLen).card := by
      unfold lossCount specValidSet
      rw [Finset.card_filter, Finset.card_filter, sum_range_mul_flatten (M := ℕ)]
      refine Finset.sum_congr rfl fun bt hbt => ?_
      have ht : bt.2 < yLen :=
        Finset.mem_range.mp (Finset.mem_product.mp hbt).2
      unfold yOutFlat
      rw [flat_div _ _ _ ht, flat_mod _ _ _ ht]
    unfold lossVal specMeanCE
    rw [hnum, hcard]
  · rfl

/-- C2 failing input: the code is not causal as the claim states.  With
`n_units = 2`, `y_length = 2`, no decoder layers and dropout off, the
target blocks `[[0, 0]]` (`cexY0`) and `[[0, 5]]` (`cexY2`) agree at
position 0 (`cexY0 0 0 = cexY2 0 0`, and both are constant over the
batch), yet the decoder outputs at position 0, channel 1 differ
(0 versus 7): the transpose-less reshape in `sentence_block_embed`
places component 0 of the position-1 token embedding at position 0,
channel 1 of the embedded target block, so the output at position 0
already depends on the token at position 1. -/
theorem decoder_not_causal_cex :
    cexY0 0 0 = cexY2 0 0 ∧
      (seq2seqH qPrims false dmKeep cfg2 par2 cexX cexY0 1 2 1).data 0 1 0
        ≠ (seq2seqH qPrims false dmKeep cfg2 par2 cexX cexY2 1 2 1).data 0 1 0 := by
  refine ⟨rfl, ?_⟩
  norm_num [seq2seqH, decoderCall, decoderGo, seq2seqEY, seq2seqZ, seq2seqZE,
    encoderCall, encoderGo, seq2seqEX, embedBlock, sentenceBlockEmbed, addT,
    embedLookup, positionIndex, zMask, seq2seqInit, convGLUDecoderInit,
    convGLUEncoderInit, cfg2, raw2, par2, cexX, cexY0, cexY2, dmKeep, qPrims,
    List.range_zero]

/-! ### Inference-mode dropout irrelevance (determinism of decoding) -/

theorem encoderGo_inference_mask_irrel (P : Prims F)
    (em em2 : ℕ → ℕ → ℕ → ℕ → Bool) :
    ∀ (ps : List (ConvGLU F)) (i j : ℕ) (x : T3 F),
      encoderGo P false em i ps x = encoderGo P false em2 j ps x
  | [], _, _, _ => rfl
  | _p :: rest, i, j, _x =>
      encoderGo_inference_mask_irrel P em em2 rest (i + 1) (j + 1) _

theorem decoderGo_inference_mask_irrel (P : Prims F)
    (dm dm2 : ℕ → ℕ → ℕ → ℕ → Bool) (z : T3 F) (ze : T4 F)
    (zmask : Mask3) (baseX : T3 F) :
    ∀ (layers : List (DecLayer F)) (i j : ℕ) (x : T3 F),
      decoderGo P false dm z ze zmask baseX i layers x
        = decoderGo P false dm2 z ze zmask baseX j layers x
  | [], _, _, _ => rfl
  | _l :: rest, i, j, _x =>
      decoderGo_inference_mask_irrel P dm dm2 z ze zmask baseX rest (i + 1) (j + 1) _

theorem predBlock_inference_mask_irrel (P : Prims F) (dm1 dm2 : DropMasks)
    (cfg : S2SCfg F) (par : S2SParams F) (x y : ℕ → ℕ → ℤ)
    (xLen yLen batch b t v : ℕ) :
    predBlock P false dm1 cfg par x y xLen yLen batch b t v
      = predBlock P false dm2 cfg par x y xLen yLen batch b t v := by
  have hZ : seq2seqZ P false dm1 cfg par x xLen yLen batch
      = seq2seqZ P false dm2 cfg par x xLen yLen batch := by
    unfold seq2seqZ encoderCall
    exact encoderGo_inference_mask_irrel P dm1.encM dm2.encM par.encLayers 0 0 _
  have hZE : seq2seqZE P false dm1 cfg par x xLen yLen batch
      = seq2seqZE P false dm2 cfg par x xLen yLen batch := by
    unfold seq2seqZE
    simp only [hZ]
  have hH : seq2seqH P false dm1 cfg par x y xLen yLen batch
      = seq2seqH P false dm2 cfg par x y xLen yLen batch := by
    unfold seq2seqH decoderCall
    rw [hZ, hZE]
    exact decoderGo_inference_mask_irrel P dm1.decM dm2.decM _ _ _ _
      par.decLayers 0 0 _
  have hh : ∀ r u, hDrop P false dm1 cfg par x y xLen yLen batch r u
      = hDrop P false dm2 cfg par x y xLen yLen batch r u := by
    intro r u
    show hFlat P false dm1 cfg par x y xLen yLen batch r u
      = hFlat P false dm2 cfg par x y xLen yLen batch r u
    unfold hFlat
    rw [hH]
  unfold predBlock predFlat
  simp only [hh]

theorem translateGo_inference_mask_irrel (P : Prims F) (dms1 dms2 : ℕ → DropMasks)
    (cfg : S2SCfg F) (par : S2SParams F) (x : ℕ → ℕ → ℤ) (xLen batch : ℕ) :
    ∀ (fuel i1 i2 yLen : ℕ) (y : ℕ → ℕ → ℤ) (flags : ℕ → Bool) (acc : List (ℕ → ℤ)),
      translateGo P false dms1 cfg par x xLen batch fuel i1 yLen y flags acc
        = translateGo P false dms2 cfg par x xLen batch fuel i2 yLen y flags acc
  | 0, _, _, _, _, _, _ => rfl
  | fuel + 1, i1, i2, yLen, y, flags, acc => by
      have hys : stepTokens P false (dms1 i1) cfg par x xLen batch yLen y
          = stepTokens P false (dms2 i2) cfg par x xLen batch yLen y := by
        funext b
        unfold stepTokens
        have hf : (fun v => predBlock P false (dms1 i1) cfg par x y xLen yLen batch b (yLen - 1) v)
            = fun v => predBlock P false (dms2 i2) cfg par x y xLen yLen batch b (yLen - 1) v :=
          funext fun v => predBlock_inference_mask_irrel P (dms1 i1) (dms2 i2) cfg par x y
            xLen yLen batch b (yLen - 1) v
        rw [hf]
      simp only [translateGo]
      rw [hys]
      by_cases hall : (List.range batch).all
          (fun b => flags b || decide (stepTokens P false (dms2 i2) cfg par x xLen batch yLen y b = 0)) = true
      · rw [if_pos hall, if_pos hall]
      · rw [if_neg hall, if_neg hall]
        exact translateGo_inference_mask_irrel P dms1 dms2 cfg par x xLen batch
          fuel (i1 + 1) (i2 + 1) (yLen + 1) _ _ _

/-- C4 amended: greedy decoding is deterministic once dropout is actually
disabled (ambient `train` flag off): for the same parameters and source
block, `translate` returns the same output sequences whatever the dropout
draws of the two invocations are. -/
theorem translate_deterministic_inference (P : Prims F) (dms1 dms2 : ℕ → DropMasks)
    (cfg : S2SCfg F) (par : S2SParams F) (x : ℕ → ℕ → ℤ) (xLen batch maxLen : ℕ) :
    translateOuts P false dms1 cfg par x xLen batch maxLen
      = translateOuts P false dms2 cfg par x xLen batch maxLen := by
  have h := translateGo_inference_mask_irrel P dms1 dms2 cfg par x xLen batch
    maxLen 0 0 1 (fun _ _ => 0) (fun _ => false) []
  unfold translateOuts translateRaw
  simp only [h]

/-- C4 counterexample: `translate` never turns the ambient chainer
`train` flag off, and with it on (its default value) the dropout draws
reach the greedy argmax: two invocations on the same parameters and the
same source block, differing only in the output-projection dropout draw,
return different token sequences. -/
theorem translate_train_mode_mask_sensitive_cex :
    translateOuts qPrims true (fun _ => dmKeep) cexCfg cexPar cexX 1 1 1
      ≠ translateOuts qPrims true (fun _ => dmDrop) cexCfg cexPar cexX 1 1 1 := by
  norm_num [translateOuts, translateRaw, translateGo, stepTokens, argmaxIdx,
    predBlock, predFlat, hDrop, hFlat, seq2seqH, decoderCall, decoderGo,
    seq2seqZ, encoderCall, encoderGo, seq2seqZE, seq2seqEY, seq2seqEX,
    embedBlock, sentenceBlockEmbed, addT, embedLookup, positionIndex, zMask,
    seq2seqInit, convGLUDecoderInit, convGLUEncoderInit, cexCfg, cexRaw,
    cexPar, cexX, dmKeep, dmDrop, qPrims, appendTok, postOne, truncEos,
    List.range_succ, Finset.sum_range_succ, Finset.sum_range_zero]

theorem postOne_len_pos_not_eos (y : List ℤ) :
    1 ≤ (postOne y).length ∧ (0 : ℤ) ∉ postOne y := by
  unfold postOne
  by_cases h : truncEos y = []
  · rw [if_pos h]
    refine ⟨by norm_num, ?_⟩
    intro hmem
    rw [List.mem_singleton] at hmem
    exact absurd hmem (by norm_num)
  · rw [if_neg h]
    refine ⟨?_, ?_⟩
    · have := List.length_pos.mpr h
      omega
    · intro hmem
      have := List.mem_takeWhile_imp hmem
      simp at this

/-- C6: `translate` never returns an empty output sequence: each raw
decoded sequence is truncated at its first end-of-sequence token (id 0)
if one is present, an empty truncation is replaced by the placeholder
`[1]`, and so every returned sequence has length at least 1 and contains
no token 0 (stated for at least one decode step; with zero steps the
source `numpy.stack` call would raise instead of returning). -/
theorem translate_output_nonempty_no_eos (P : Prims F) (train : Bool)
    (dms : ℕ → DropMasks) (cfg : S2SCfg F) (par : S2SParams F)
    (x : ℕ → ℕ → ℤ) (xLen batch maxLen : ℕ) (_hfuel : 1 ≤ maxLen) :
    ∀ o ∈ translateOuts P train dms cfg par x xLen batch maxLen,
      1 ≤ o.length ∧ (0 : ℤ) ∉ o := by
  intro o ho
  unfold translateOuts at ho
  rw [List.mem_map] at ho
  obtain ⟨b, -, rfl⟩ := ho
  exact postOne_len_pos_not_eos _

/-- Witness for C6 on a concrete one-step decode whose output is `[[2]]`. -/
theorem translate_output_nonempty_no_eos_w :
    ((1 : ℕ) ≤ 1) ∧ 1 ≤ ([(2 : ℤ)] : List ℤ).length ∧ (0 : ℤ) ∉ ([(2 : ℤ)] : List ℤ) := by
  have hmem : [(2 : ℤ)] ∈
      translateOuts qPrims false (fun _ => dmKeep) cexCfg cexPar cexX 1 1 1 := by
    norm_num [translateOuts, translateRaw, translateGo, stepTokens, argmaxIdx,
      predBlock, predFlat, hDrop, hFlat, seq2seqH, decoderCall, decoderGo,
      seq2seqZ, encoderCall, encoderGo, seq2seqZE, seq2seqEY, seq2seqEX,
      embedBlock, sentenceBlockEmbed, addT, embedLookup, positionIndex, zMask,
      seq2seqInit, convGLUDecoderInit, convGLUEncoderInit, cexCfg, cexRaw,
      cexPar, cexX, dmKeep, qPrims, appendTok, postOne, truncEos,
      List.range_succ, Finset.sum_range_succ, Finset.sum_range_zero]
  exact ⟨le_refl 1, translate_output_nonempty_no_eos qPrims false (fun _ => dmKeep)
    cexCfg cexPar cexX 1 1 1 (le_refl 1) [(2 : ℤ)] hmem⟩

end ConvS2S
